import Mathlib

/-!
# p2roll: character roster and d20 roll resolution

A shallow embedding of the Go sources `config.go`, `char.go` and `roll.go`.

* Go `int` is a 64-bit two's-complement integer: values are carried in `Int`
  and every arithmetic operation of the source is wrapped with `wrapInt`.
* A pointer into the roster slice (`&c.Chars[i]`) is the index `i`.
* `strings.EqualFold` belongs to the Go standard library; the embedding takes
  it as a parameter (`Fold`) of which only reflexivity is assumed, and supplies
  the ASCII instance `asciiFold` for concrete evaluation.
-/

set_option autoImplicit false

namespace P2Roll

/-! ## Machine integers -/

/-- Two's-complement wrap of an exact integer into a 64-bit Go `int`. -/
def wrapInt (x : Int) : Int := (x + 2 ^ 63) % 2 ^ 64 - 2 ^ 63

/-- The values a 64-bit Go `int` can hold. -/
def InInt (x : Int) : Prop := -(2 ^ 63) ≤ x ∧ x < 2 ^ 63

instance (x : Int) : Decidable (InInt x) := by unfold InInt; infer_instance

/-- Go `a + b` on `int`. -/
def goAdd (a b : Int) : Int := wrapInt (a + b)

/-- Go `a - b` on `int`. -/
def goSub (a b : Int) : Int := wrapInt (a - b)

/-! ## Data model (`config.go`) -/

/-- `type ProfBonus int`: a rank is stored as its numeric bonus. -/
abbrev ProfBonus := Int

abbrev ProfUnknown : ProfBonus := -100
abbrev ProfUntrained : ProfBonus := 0
abbrev ProfTrained : ProfBonus := 2
abbrev ProfExpert : ProfBonus := 4
abbrev ProfMaster : ProfBonus := 6
abbrev ProfLegendary : ProfBonus := 8

structure ModConfig where
  Strength : Int
  Dexterity : Int
  Constitution : Int
  Intellect : Int
  Wisdom : Int
  Charisma : Int
deriving DecidableEq, Repr

structure SaveConfig where
  Reflex : ProfBonus
  Fortitude : ProfBonus
  Will : ProfBonus
deriving DecidableEq, Repr

structure IdentifyConfig where
  Arcana : ProfBonus
  Nature : ProfBonus
  Occultism : ProfBonus
  Religion : ProfBonus
deriving DecidableEq, Repr

structure ProfConfig where
  Perception : ProfBonus
  Stealth : ProfBonus
  Saves : SaveConfig
  IdentifySkills : IdentifyConfig
deriving DecidableEq, Repr

structure CharConfig where
  Name : String
  Player : String
  Level : Int
  Modifiers : ModConfig
  Proficiencies : ProfConfig
  ArmorPenalty : Int
deriving DecidableEq, Repr

structure GameConfig where
  Chars : List CharConfig
  path : String
deriving DecidableEq, Repr

/-! ## Derived statistics (`config.go`, lines 187-244) -/

/-- Go `profBonus`. -/
def profBonus (prof : ProfBonus) (level : Int) : Int :=
  if prof = ProfUntrained then 0 else goAdd level prof

/-- Go `calcMod`. -/
def calcMod (stat : Int) (prof : ProfBonus) (level : Int) : Int :=
  goAdd stat (profBonus prof level)

def CharConfig.Perception (c : CharConfig) : Int :=
  calcMod c.Modifiers.Wisdom c.Proficiencies.Perception c.Level

def CharConfig.Stealth (c : CharConfig) : Int :=
  goSub (calcMod c.Modifiers.Dexterity c.Proficiencies.Stealth c.Level) c.ArmorPenalty

def CharConfig.ReflexSave (c : CharConfig) : Int :=
  calcMod c.Modifiers.Dexterity c.Proficiencies.Saves.Reflex c.Level

def CharConfig.FortitudeSave (c : CharConfig) : Int :=
  calcMod c.Modifiers.Constitution c.Proficiencies.Saves.Fortitude c.Level

def CharConfig.WillSave (c : CharConfig) : Int :=
  calcMod c.Modifiers.Wisdom c.Proficiencies.Saves.Will c.Level

def CharConfig.Arcana (c : CharConfig) : Int :=
  calcMod c.Modifiers.Intellect c.Proficiencies.IdentifySkills.Arcana c.Level

def CharConfig.Nature (c : CharConfig) : Int :=
  calcMod c.Modifiers.Wisdom c.Proficiencies.IdentifySkills.Nature c.Level

def CharConfig.Occultism (c : CharConfig) : Int :=
  calcMod c.Modifiers.Intellect c.Proficiencies.IdentifySkills.Occultism c.Level

def CharConfig.Religion (c : CharConfig) : Int :=
  calcMod c.Modifiers.Wisdom c.Proficiencies.IdentifySkills.Religion c.Level

/-- Go `GenericIdentify`: the builtin `max` of the four knowledge skills. -/
def CharConfig.GenericIdentify (c : CharConfig) : Int :=
  max (max (max c.Arcana c.Nature) c.Occultism) c.Religion

/-! ## Roll resolution (`roll.go`) -/

/-- `type SuccessDegree int` with the `iota` constants below. -/
abbrev SuccessDegree := Int

abbrev CriticalFailure : SuccessDegree := 0
abbrev Failure : SuccessDegree := 1
abbrev Success : SuccessDegree := 2
abbrev CriticalSuccess : SuccessDegree := 3

/-- `type modFn func(c *CharConfig) int`. -/
abbrev modFn := CharConfig → Int

def Perception : modFn := fun c => c.Perception
def Stealth : modFn := fun c => c.Stealth
def ReflexSave : modFn := fun c => c.ReflexSave
def FortitudeSave : modFn := fun c => c.FortitudeSave
def WillSave : modFn := fun c => c.WillSave
def GenericIdentify : modFn := fun c => c.GenericIdentify
def Arcana : modFn := fun c => c.Arcana
def Nature : modFn := fun c => c.Nature
def Occultism : modFn := fun c => c.Occultism
def Religion : modFn := fun c => c.Religion
def Flat : modFn := fun _ => 0

/-- The `if`/`else if` chain of `roll`, lines 131-139: the degree before the
natural-die shift. -/
def boundaryDegree (result target : Int) : SuccessDegree :=
  if result ≤ goSub target 10 then CriticalFailure
  else if result < target then Failure
  else if result ≥ goAdd target 10 then CriticalSuccess
  else Success

/-- The natural-die shift of `roll`, lines 141-145. -/
def naturalShift (d20 : Int) (degree : SuccessDegree) : SuccessDegree :=
  if d20 = 1 then max CriticalFailure (degree - 1)
  else if d20 = 20 then min CriticalSuccess (degree + 1)
  else degree

/-- How the die value is printed (the `switch d20` of `roll`). -/
inductive DieStyle where
  | red
  | yellow
  | plain
deriving DecidableEq, Repr

/-- One output line of `roll`: the icon's degree when one is printed, the
character's identity, the die, the modifier and the total. -/
structure RollLine where
  degree : Option SuccessDegree
  Name : String
  Player : String
  d20 : Int
  style : DieStyle
  mod : Int
  result : Int
deriving DecidableEq, Repr

/-- One iteration of the loop of `roll`; `intn` is the value that
`rng.Intn(20)` returned in this iteration. -/
def rollChar (fn : modFn) (target : Int) (intn : Int) (char : CharConfig) : RollLine :=
  let d20 := goAdd intn 1
  let mod := fn char
  let result := goAdd d20 mod
  { degree :=
      if target ≠ 0 then some (naturalShift d20 (boundaryDegree result target)) else none
    Name := char.Name
    Player := char.Player
    d20 := d20
    style := if d20 = 1 then DieStyle.red else if d20 = 20 then DieStyle.yellow else DieStyle.plain
    mod := mod
    result := result }

/-- The loop of `roll` from iteration `i` on; `rng i` is the draw of the
generator freshly seeded in iteration `i`. -/
def rollFrom (fn : modFn) (target : Int) (rng : Nat → Int) : Nat → List CharConfig → List RollLine
  | _, [] => []
  | i, char :: rest => rollChar fn target (rng i) char :: rollFrom fn target rng (i + 1) rest

/-- What `roll` prints: the `DC` header when the target is non-zero, then one
line per character. -/
structure RollOutput where
  header : Option Int
  lines : List RollLine
deriving DecidableEq, Repr

/-- Go `roll`. -/
def roll (chars : List CharConfig) (fn : modFn) (target : Int) (rng : Nat → Int) : RollOutput :=
  { header := if target ≠ 0 then some target else none
    lines := rollFrom fn target rng 0 chars }

/-- The spec's four boundaries over exact integers, in its precedence order. -/
def classifySpec (total target : Int) : SuccessDegree :=
  if total ≤ target - 10 then CriticalFailure
  else if total < target then Failure
  else if total ≥ target + 10 then CriticalSuccess
  else Success

/-! ## Roster operations (`config.go`, lines 98-185) -/

/-- Go `error`: `none` is `nil`. -/
abbrev GoError := Option String

/-- The comparison `strings.EqualFold` of the Go standard library. -/
structure Fold where
  eq : String → String → Bool
  refl : ∀ s, eq s s = true

/-- ASCII lower-casing of one rune. -/
def asciiLower (c : Char) : Char :=
  if 65 ≤ c.toNat ∧ c.toNat ≤ 90 then Char.ofNat (c.toNat + 32) else c

/-- The instance of `Fold` that folds the letters `A`-`Z` only; it agrees with
`strings.EqualFold` on strings of ASCII characters. -/
def asciiFold : Fold where
  eq s t := s.data.map asciiLower == t.data.map asciiLower
  refl s := by simp

/-- Go `<` on strings: lexicographic on the encoded runes. -/
def runesLess : List Char → List Char → Bool
  | _, [] => false
  | [], _ :: _ => true
  | a :: as, b :: bs =>
    if a.toNat < b.toNat then true
    else if b.toNat < a.toNat then false
    else runesLess as bs

def stringLess (a b : String) : Bool := runesLess a.data b.data

/-- `type searchFn func(char *CharConfig) bool`. -/
abbrev searchFn := CharConfig → Bool

def nameSearchFn (F : Fold) (name : String) : searchFn :=
  fun char => F.eq char.Name name

def playerSearchFn (F : Fold) (player : String) : searchFn :=
  fun char => F.eq char.Player player

/-- The `range` loop of `searchChars`, entered at index `i`. -/
def searchFrom (matchFn : searchFn) : Nat → List CharConfig → Except String Nat
  | _, [] => Except.error "character not found"
  | i, char :: rest =>
    if !matchFn char then searchFrom matchFn (i + 1) rest else Except.ok i

/-- Go `searchChars`. -/
def GameConfig.searchChars (c : GameConfig) (matchFn : searchFn) : Except String Nat :=
  searchFrom matchFn 0 c.Chars

/-- Go `CharByName`; the returned pointer `&c.Chars[i]` is the index `i`. -/
def GameConfig.CharByName (c : GameConfig) (F : Fold) (name : String) : Except String Nat :=
  c.searchChars (nameSearchFn F name)

/-- Go `CharByPlayerName`. -/
def GameConfig.CharByPlayerName (c : GameConfig) (F : Fold) (playerName : String) :
    Except String Nat :=
  c.searchChars (playerSearchFn F playerName)

def GameConfig.AllChars (c : GameConfig) : List CharConfig := c.Chars

/-- Go `AddChar`: the returned error and the receiver afterwards. -/
def GameConfig.AddChar (c : GameConfig) (F : Fold) (char : CharConfig) : GoError × GameConfig :=
  match c.CharByName F char.Name with
  | Except.ok _ => (some "character with name already exists in game", c)
  | Except.error _ =>
    match c.CharByPlayerName F char.Player with
    | Except.ok _ => (some "character with player name already exists in game", c)
    | Except.error _ => (none, { c with Chars := c.Chars ++ [char] })

/-- Go `sortChars`: `sort.Slice` with `Chars[i].Name < Chars[j].Name`.
`sort.Slice` does not fix the order of records with equal names; the insertion
sort used here keeps their order, and no statement below depends on it. -/
def GameConfig.sortChars (c : GameConfig) : GameConfig :=
  { c with Chars := c.Chars.insertionSort (fun a b => stringLess b.Name a.Name = false) }

/-- The parallel assignment `Chars[i], Chars[j] = Chars[j], Chars[i]`. -/
def swapChars (chars : List CharConfig) (i j : Nat) : List CharConfig :=
  match chars[i]?, chars[j]? with
  | some a, some b => (chars.set i b).set j a
  | _, _ => chars

/-- Go `RemoveCharByName`. -/
def GameConfig.RemoveCharByName (c : GameConfig) (F : Fold) (name : String) :
    GoError × GameConfig :=
  match c.searchChars (nameSearchFn F name) with
  | Except.error e => (some e, c)
  | Except.ok i =>
    let c1 := { c with Chars := swapChars c.Chars i (c.Chars.length - 1) }
    let c2 := { c1 with Chars := c1.Chars.take (c1.Chars.length - 1) }
    (none, c2.sortChars)

/-- Go `RemoveCharByPlayerName`. -/
def GameConfig.RemoveCharByPlayerName (c : GameConfig) (F : Fold) (playerName : String) :
    GoError × GameConfig :=
  match c.searchChars (playerSearchFn F playerName) with
  | Except.error e => (some e, c)
  | Except.ok i =>
    let c1 := { c with Chars := swapChars c.Chars i (c.Chars.length - 1) }
    let c2 := { c1 with Chars := c1.Chars.take (c1.Chars.length - 1) }
    (none, c2)

/-! ## Persistence (`config.go`, lines 72-80) -/

/-- The roster in memory together with the calls of `os.WriteFile` made so
far, oldest first: the path and the record sequence that was serialised. -/
structure World where
  conf : GameConfig
  writes : List (String × List CharConfig)
deriving DecidableEq, Repr

/-- Go `Write`: sort, serialise the records, hand them to `os.WriteFile`;
`fsErr` is the error that `os.WriteFile` returns. -/
def World.Write (w : World) (fsErr : GoError) : GoError × World :=
  let c := w.conf.sortChars
  (fsErr, { conf := c, writes := w.writes ++ [(c.path, c.Chars)] })

/-! ## Commands (`char.go`) -/

/-- The zero test `reflect.ValueOf(val).IsZero()` at the types it is used at. -/
class GoZero (α : Type) where
  isZero : α → Bool

instance : GoZero String := ⟨fun s => decide (s = "")⟩

instance : GoZero Int := ⟨fun n => decide (n = 0)⟩

/-- Go `setIfNotEmpty`: the value of `*dest` afterwards. -/
def setIfNotEmpty {α : Type} [GoZero α] (dest val : α) : α :=
  if GoZero.isZero val then dest else val

/-- Go `setIfNotMatching`: the value of `*dest` afterwards. -/
def setIfNotMatching {α : Type} [DecidableEq α] (dest val comp : α) : α :=
  if val = comp then dest else val

/-- Go `parseProf`. -/
def parseProf (p : String) : ProfBonus :=
  if p = "U" then ProfUntrained
  else if p = "T" then ProfTrained
  else if p = "E" then ProfExpert
  else if p = "M" then ProfMaster
  else if p = "L" then ProfLegendary
  else ProfUnknown

/-- Go `getChar`. -/
def getChar (conf : GameConfig) (F : Fold) (name player : String) : Except String Nat :=
  if name ≠ "" then conf.CharByName F name else conf.CharByPlayerName F player

structure CharacterAddCmd where
  Name : String
  Player : String
  Level : Int
  Strength : Int
  Dexterity : Int
  Constitution : Int
  Intellect : Int
  Wisdom : Int
  Charisma : Int
  Perception : String
  Stealth : String
  Reflex : String
  Fortitude : String
  Will : String
  Arcana : String
  Nature : String
  Occultism : String
  Religion : String
  ArmorPenalty : Int
deriving DecidableEq, Repr

/-- The record that `CharacterAddCmd.Run` builds from the flags. -/
def CharacterAddCmd.char (c : CharacterAddCmd) : CharConfig :=
  { Name := c.Name
    Player := c.Player
    Level := c.Level
    Modifiers :=
      { Strength := c.Strength
        Dexterity := c.Dexterity
        Constitution := c.Constitution
        Intellect := c.Intellect
        Wisdom := c.Wisdom
        Charisma := c.Charisma }
    Proficiencies :=
      { Perception := parseProf c.Perception
        Stealth := parseProf c.Stealth
        Saves :=
          { Reflex := parseProf c.Reflex
            Fortitude := parseProf c.Fortitude
            Will := parseProf c.Will }
        IdentifySkills :=
          { Arcana := parseProf c.Arcana
            Nature := parseProf c.Nature
            Occultism := parseProf c.Occultism
            Religion := parseProf c.Religion } }
    ArmorPenalty := c.ArmorPenalty }

/-- Go `CharacterAddCmd.Run`. -/
def CharacterAddCmd.Run (c : CharacterAddCmd) (F : Fold) (w : World) (fsErr : GoError) :
    GoError × World :=
  match w.conf.AddChar F c.char with
  | (some err, conf) => (some err, { w with conf := conf })
  | (none, conf) => World.Write { w with conf := conf } fsErr

structure CharacterRemoveCmd where
  Name : String
  Player : String
deriving DecidableEq, Repr

/-- Go `CharacterRemoveCmd.Run`. -/
def CharacterRemoveCmd.Run (c : CharacterRemoveCmd) (F : Fold) (w : World) (fsErr : GoError) :
    GoError × World :=
  let r :=
    if c.Name ≠ "" then w.conf.RemoveCharByName F c.Name
    else w.conf.RemoveCharByPlayerName F c.Player
  match r with
  | (some err, conf) => (some err, { w with conf := conf })
  | (none, conf) => World.Write { w with conf := conf } fsErr

structure CharacterEditCmd where
  Name : String
  Player : String
  NewName : String
  NewPlayer : String
  Level : Int
  Strength : Int
  Dexterity : Int
  Constitution : Int
  Intellect : Int
  Wisdom : Int
  Charisma : Int
  Perception : String
  Stealth : String
  Reflex : String
  Fortitude : String
  Will : String
  Arcana : String
  Nature : String
  Occultism : String
  Religion : String
  ArmorPenalty : Int
deriving DecidableEq, Repr

/-- The field updates of `CharacterEditCmd.Run`, lines 151-173, on the record
that `char` points to, in source order. -/
def CharacterEditCmd.apply (c : CharacterEditCmd) (char : CharConfig) : CharConfig :=
  let char := { char with Name := setIfNotEmpty char.Name c.NewName }
  let char := { char with Player := setIfNotEmpty char.Player c.NewPlayer }
  let char := { char with Level := setIfNotEmpty char.Level c.Level }
  let char := { char with Modifiers.Strength := setIfNotEmpty char.Modifiers.Strength c.Strength }
  let char := { char with Modifiers.Dexterity := setIfNotEmpty char.Modifiers.Dexterity c.Dexterity }
  let char := { char with
    Modifiers.Constitution := setIfNotEmpty char.Modifiers.Constitution c.Constitution }
  let char := { char with Modifiers.Intellect := setIfNotEmpty char.Modifiers.Intellect c.Intellect }
  let char := { char with Modifiers.Wisdom := setIfNotEmpty char.Modifiers.Wisdom c.Wisdom }
  let char := { char with Modifiers.Charisma := setIfNotEmpty char.Modifiers.Charisma c.Charisma }
  let char := { char with ArmorPenalty := setIfNotMatching char.ArmorPenalty c.ArmorPenalty (-100) }
  let char := { char with
    Proficiencies.Saves.Reflex := setIfNotEmpty char.Proficiencies.Saves.Reflex (parseProf c.Reflex) }
  let char := { char with
    Proficiencies.Saves.Fortitude :=
      setIfNotEmpty char.Proficiencies.Saves.Fortitude (parseProf c.Fortitude) }
  let char := { char with
    Proficiencies.Saves.Will := setIfNotEmpty char.Proficiencies.Saves.Will (parseProf c.Will) }
  let char := { char with
    Proficiencies.Perception :=
      setIfNotMatching char.Proficiencies.Perception (parseProf c.Perception) ProfUnknown }
  let char := { char with
    Proficiencies.Stealth :=
      setIfNotMatching char.Proficiencies.Stealth (parseProf c.Stealth) ProfUnknown }
  let char := { char with
    Proficiencies.IdentifySkills.Arcana :=
      setIfNotMatching char.Proficiencies.IdentifySkills.Arcana (parseProf c.Arcana) ProfUnknown }
  let char := { char with
    Proficiencies.IdentifySkills.Nature :=
      setIfNotMatching char.Proficiencies.IdentifySkills.Nature (parseProf c.Nature) ProfUnknown }
  let char := { char with
    Proficiencies.IdentifySkills.Occultism :=
      setIfNotMatching char.Proficiencies.IdentifySkills.Occultism (parseProf c.Occultism)
        ProfUnknown }
  let char := { char with
    Proficiencies.IdentifySkills.Religion :=
      setIfNotMatching char.Proficiencies.IdentifySkills.Religion (parseProf c.Religion)
        ProfUnknown }
  char

/-- Writing through the pointer `&Chars[i]`: the record at index `i` is
replaced by `f` of it. -/
def updateAt : List CharConfig → Nat → (CharConfig → CharConfig) → List CharConfig
  | [], _, _ => []
  | char :: rest, 0, f => f char :: rest
  | char :: rest, i + 1, f => char :: updateAt rest i f

/-- The roster after the field updates of `CharacterEditCmd.Run` and before
its call of `Write`. -/
def CharacterEditCmd.edited (c : CharacterEditCmd) (conf : GameConfig) (i : Nat) : GameConfig :=
  { conf with Chars := updateAt conf.Chars i c.apply }

/-- Go `CharacterEditCmd.Run`. -/
def CharacterEditCmd.Run (c : CharacterEditCmd) (F : Fold) (w : World) (fsErr : GoError) :
    GoError × World :=
  match getChar w.conf F c.Name c.Player with
  | Except.error err => (some err, w)
  | Except.ok i => World.Write { w with conf := c.edited w.conf i } fsErr

/-- An edit request with only the selector set: every other flag at the
default the command line gives it when it is not supplied. -/
def editDefaults (name player : String) : CharacterEditCmd :=
  { Name := name
    Player := player
    NewName := ""
    NewPlayer := ""
    Level := 0
    Strength := 0
    Dexterity := 0
    Constitution := 0
    Intellect := 0
    Wisdom := 0
    Charisma := 0
    Perception := ""
    Stealth := ""
    Reflex := ""
    Fortitude := ""
    Will := ""
    Arcana := ""
    Nature := ""
    Occultism := ""
    Religion := ""
    ArmorPenalty := -100 }

/-! ## Loading (`config.go`, lines 68-96) -/

/-- Go `NewGameConfig`. -/
def NewGameConfig (filepath : String) : GameConfig :=
  { Chars := [], path := filepath }

/-- What `os.ReadFile` returns: the file's bytes, or an error with its message
and whether `errors.Is(err, fs.ErrNotExist)` holds of it. -/
inductive ReadResult where
  | data (b : String)
  | failed (msg : String) (notExist : Bool)
deriving DecidableEq, Repr

/-- Go `LoadConfig`: the returned pointer (`none` is `nil`) and error; `read`
is the result of `os.ReadFile(path)` and `unmarshal` stands for
`yaml.Unmarshal` into a fresh `GameConfig`, giving the records it decoded and
its error. -/
def LoadConfig (path : String) (read : ReadResult)
    (unmarshal : String → List CharConfig × GoError) : Option GameConfig × GoError :=
  match read with
  | ReadResult.failed msg notExist =>
    if notExist then (some (NewGameConfig path), none)
    else (none, some ("opening file for loading: " ++ msg))
  | ReadResult.data b =>
    let ret : GameConfig := { Chars := (unmarshal b).1, path := "" }
    (some { ret with path := path }, (unmarshal b).2)

/-! ## The roll command (`roll.go`, lines 11-93) -/

structure RollOpts where
  Name : String
  Player : String
  All : Bool
  Target : Int
deriving DecidableEq, Repr

/-- Go `runRoll`: the returned error and what `roll` printed, if it was
called. The index that `getChar` returns is always inside the roster, so the
dereference `*foundChar` has a value. -/
def runRoll (conf : GameConfig) (F : Fold) (c : RollOpts) (fn : modFn) (rng : Nat → Int) :
    GoError × Option RollOutput :=
  if c.All then (none, some (roll conf.AllChars fn c.Target rng))
  else
    match getChar conf F c.Name c.Player with
    | Except.error err => (some err, none)
    | Except.ok i => (none, some (roll (conf.Chars[i]?).toList fn c.Target rng))

/-- A level-3 character used to evaluate the definitions on concrete input. -/
def sampleChar : CharConfig :=
  { Name := "Alice"
    Player := "Ann"
    Level := 3
    Modifiers :=
      { Strength := 1, Dexterity := 2, Constitution := 0, Intellect := 4, Wisdom := -1,
        Charisma := 3 }
    Proficiencies :=
      { Perception := ProfTrained
        Stealth := ProfExpert
        Saves := { Reflex := ProfTrained, Fortitude := ProfUntrained, Will := ProfExpert }
        IdentifySkills :=
          { Arcana := ProfTrained, Nature := ProfUntrained, Occultism := ProfUntrained,
            Religion := ProfMaster } }
    ArmorPenalty := 1 }

/-- An add request with every optional flag at its command-line default. -/
def addDefaults (name player : String) : CharacterAddCmd :=
  { Name := name
    Player := player
    Level := 1
    Strength := 0
    Dexterity := 0
    Constitution := 0
    Intellect := 0
    Wisdom := 0
    Charisma := 0
    Perception := "U"
    Stealth := "U"
    Reflex := "U"
    Fortitude := "U"
    Will := "U"
    Arcana := "U"
    Nature := "U"
    Occultism := "U"
    Religion := "U"
    ArmorPenalty := 0 }

/-- A process state whose roster holds `chars` and that has written nothing. -/
def worldOf (chars : List CharConfig) : World :=
  { conf := { Chars := chars, path := "roster.yml" }, writes := [] }

/-! ## Arithmetic helpers -/

theorem wrapInt_of_inInt {x : Int} (h : InInt x) : wrapInt x = x := by
  unfold InInt at h
  unfold wrapInt
  omega

theorem wrapInt_add_wrapInt (a b : Int) : wrapInt (a + wrapInt b) = wrapInt (a + b) := by
  unfold wrapInt
  omega

theorem inInt_wrapInt (x : Int) : InInt (wrapInt x) := by
  unfold InInt wrapInt
  omega

theorem rollFrom_getElem? (fn : modFn) (target : Int) (rng : Nat → Int) :
    ∀ (chars : List CharConfig) (k i : Nat),
      (rollFrom fn target rng k chars)[i]? =
        (chars[i]?).map (rollChar fn target (rng (k + i))) := by
  intro chars
  induction chars with
  | nil => intro k i; simp [rollFrom]
  | cons c cs ih =>
    intro k i
    cases i with
    | zero => simp [rollFrom]
    | succ j =>
      simp only [rollFrom, List.getElem?_cons_succ]
      rw [ih (k + 1) j]
      have : k + 1 + j = k + (j + 1) := by omega
      rw [this]

/-- The line that `roll` prints for the character at index `i`. -/
theorem roll_line (fn : modFn) (target : Int) (rng : Nat → Int) (chars : List CharConfig)
    (i : Nat) (char : CharConfig) (h : chars[i]? = some char) :
    (roll chars fn target rng).lines[i]? = some (rollChar fn target (rng i) char) := by
  simp [roll, rollFrom_getElem?, h]

/-! ## Derived statistics -/

/-- C1: for a modifier `m` and level `l`, `calcMod` returns `m` for the
Untrained rank whatever the level is, and `m + l + offset` for the ranks
Trained, Expert, Master and Legendary, whose offsets are 2, 4, 6 and 8: the
equation holds in Go `int` arithmetic on every input and in exact integers
whenever `m + l + offset` is representable. -/
theorem calcMod_by_rank (m l r : Int) (hm : InInt m)
    (hr : r = ProfTrained ∨ r = ProfExpert ∨ r = ProfMaster ∨ r = ProfLegendary) :
    calcMod m ProfUntrained l = m ∧
    calcMod m r l = goAdd (goAdd m l) r ∧
    calcMod m r l = wrapInt (m + l + r) ∧
    (InInt (m + l + r) → calcMod m r l = m + l + r) ∧
    (ProfTrained = 2 ∧ ProfExpert = 4 ∧ ProfMaster = 6 ∧ ProfLegendary = 8) := by
  have hne : r ≠ ProfUntrained := by
    rcases hr with h | h | h | h <;> rw [h] <;> decide
  have hmod : calcMod m r l = wrapInt (m + l + r) := by
    simp only [calcMod, profBonus, if_neg hne, goAdd]
    rw [wrapInt_add_wrapInt, add_assoc]
  refine ⟨?_, ?_, hmod, ?_, by decide⟩
  · simp [calcMod, profBonus, goAdd, wrapInt_of_inInt hm]
  · rw [hmod]
    simp only [goAdd]
    unfold wrapInt
    omega
  · intro h
    rw [hmod, wrapInt_of_inInt h]

theorem calcMod_by_rank_witness :
    calcMod 4 ProfUntrained 3 = 4 ∧ calcMod 4 ProfExpert 3 = 4 + 3 + 4 :=
  have h := calcMod_by_rank 4 3 ProfExpert (by decide) (by decide)
  ⟨h.1, h.2.2.2.1 (by decide)⟩

/-- C2: for every character, `Stealth` is `calcMod` of dexterity, the stealth
rank and the level, minus the armor penalty (in Go `int` arithmetic, and in
exact integers whenever that difference is representable), and
`GenericIdentify` is the maximum of `Arcana`, `Nature`, `Occultism` and
`Religion`: it is at least each of them and equal to one of them. -/
theorem stealth_and_genericIdentify (c : CharConfig) :
    c.Stealth =
      goSub (calcMod c.Modifiers.Dexterity c.Proficiencies.Stealth c.Level) c.ArmorPenalty ∧
    (InInt (calcMod c.Modifiers.Dexterity c.Proficiencies.Stealth c.Level - c.ArmorPenalty) →
      c.Stealth =
        calcMod c.Modifiers.Dexterity c.Proficiencies.Stealth c.Level - c.ArmorPenalty) ∧
    (c.Arcana ≤ c.GenericIdentify ∧ c.Nature ≤ c.GenericIdentify ∧
      c.Occultism ≤ c.GenericIdentify ∧ c.Religion ≤ c.GenericIdentify) ∧
    (c.GenericIdentify = c.Arcana ∨ c.GenericIdentify = c.Nature ∨
      c.GenericIdentify = c.Occultism ∨ c.GenericIdentify = c.Religion) := by
  refine ⟨rfl, ?_, ?_, ?_⟩
  · intro h
    simp only [CharConfig.Stealth, goSub]
    exact wrapInt_of_inInt h
  · simp only [CharConfig.GenericIdentify]
    omega
  · simp only [CharConfig.GenericIdentify]
    omega

theorem stealth_and_genericIdentify_witness :
    sampleChar.Stealth = 2 + 3 + 4 - 1 ∧ sampleChar.GenericIdentify = 4 + 3 + 2 := by
  have h := stealth_and_genericIdentify sampleChar
  refine ⟨?_, by decide⟩
  rw [h.2.1 (by decide)]
  decide

/-! ## Roll resolution -/

theorem boundaryDegree_range (t x : Int) :
    boundaryDegree x t = 0 ∨ boundaryDegree x t = 1 ∨ boundaryDegree x t = 2 ∨
      boundaryDegree x t = 3 := by
  unfold boundaryDegree
  split_ifs <;> simp

theorem naturalShift_cases (d g : Int) (hg : g = 0 ∨ g = 1 ∨ g = 2 ∨ g = 3) :
    (d = 1 → naturalShift d g = if g = CriticalFailure then CriticalFailure else g - 1) ∧
    (d = 20 → naturalShift d g = if g = CriticalSuccess then CriticalSuccess else g + 1) ∧
    (d ≠ 1 → d ≠ 20 → naturalShift d g = g) ∧
    (naturalShift d g = CriticalFailure ∨ naturalShift d g = Failure ∨
      naturalShift d g = Success ∨ naturalShift d g = CriticalSuccess) := by
  unfold naturalShift
  rcases hg with rfl | rfl | rfl | rfl <;>
    refine ⟨fun h => ?_, fun h => ?_, fun h1 h20 => ?_, ?_⟩
  all_goals first
    | (rw [if_neg h1, if_neg h20])
    | (rw [if_pos h]; decide)
    | (rw [if_neg (by omega : ¬ d = 1), if_pos h]; decide)
    | (split_ifs <;> decide)

/-- C3: for a die value `d = r + 1` in 1..20, a modifier `m = fn char` and a
non-zero target `t`, `roll` totals `d + m` and shifts the degree
`boundaryDegree total t`, which is Critical Failure if `total <= t - 10`,
otherwise Failure if `total < t`, otherwise Critical Success if
`total >= t + 10`, otherwise Success; the comparisons are those of Go `int`
arithmetic, and they are the spec's exact ones whenever `d + m`, `t - 10` and
`t + 10` are representable. -/
theorem roll_boundary_degree (fn : modFn) (chars : List CharConfig) (i : Nat)
    (char : CharConfig) (rng : Nat → Int) (t : Int)
    (hc : chars[i]? = some char) (hr : 0 ≤ rng i ∧ rng i < 20) (ht : t ≠ 0) :
    ∃ line, (roll chars fn t rng).lines[i]? = some line ∧
      line.d20 = rng i + 1 ∧
      line.result = goAdd (rng i + 1) (fn char) ∧
      line.degree = some (naturalShift line.d20 (boundaryDegree line.result t)) ∧
      (line.result ≤ goSub t 10 → boundaryDegree line.result t = CriticalFailure) ∧
      (¬ line.result ≤ goSub t 10 → line.result < t →
        boundaryDegree line.result t = Failure) ∧
      (¬ line.result ≤ goSub t 10 → ¬ line.result < t → line.result ≥ goAdd t 10 →
        boundaryDegree line.result t = CriticalSuccess) ∧
      (¬ line.result ≤ goSub t 10 → ¬ line.result < t → ¬ line.result ≥ goAdd t 10 →
        boundaryDegree line.result t = Success) ∧
      (InInt (rng i + 1 + fn char) → InInt (t - 10) → InInt (t + 10) →
        line.result = rng i + 1 + fn char ∧
        boundaryDegree line.result t = classifySpec (rng i + 1 + fn char) t) := by
  have hd : goAdd (rng i) 1 = rng i + 1 := by
    apply wrapInt_of_inInt
    unfold InInt
    omega
  refine ⟨rollChar fn t (rng i) char, roll_line fn t rng chars i char hc, ?_, ?_, ?_, ?_, ?_,
    ?_, ?_, ?_⟩
  · simp [rollChar, hd]
  · simp [rollChar, hd]
  · simp [rollChar, ht]
  · intro h
    simp [boundaryDegree, h]
  · intro h1 h2
    simp [boundaryDegree, h1, h2]
  · intro h1 h2 h3
    simp only [boundaryDegree, if_neg h1, if_neg h2, if_pos h3]
  · intro h1 h2 h3
    simp only [boundaryDegree, if_neg h1, if_neg h2, if_neg h3]
  · intro h1 h2 h3
    have hres : (rollChar fn t (rng i) char).result = rng i + 1 + fn char := by
      simp only [rollChar, hd]
      exact wrapInt_of_inInt h1
    refine ⟨hres, ?_⟩
    rw [hres]
    simp only [boundaryDegree, classifySpec, goSub, goAdd, wrapInt_of_inInt h2,
      wrapInt_of_inInt h3]

theorem roll_boundary_degree_witness :
    ∃ line, (roll [sampleChar] Flat 15 (fun _ => 4)).lines[0]? = some line ∧
      line.d20 = 5 ∧ line.result = 5 ∧ boundaryDegree line.result 15 = CriticalFailure := by
  obtain ⟨line, h1, h2, h3, _, h5, _⟩ :=
    roll_boundary_degree Flat [sampleChar] 0 sampleChar (fun _ => 4) 15 rfl
      (by decide) (by decide)
  have hres : line.result = 5 := by rw [h3]; decide
  refine ⟨line, h1, by rw [h2]; rfl, hres, ?_⟩
  apply h5
  rw [hres]
  decide

/-- C4: for a non-zero target, the final degree that `roll` prints relates to
the boundary-classified degree `g`: a die of 1 gives `g` lowered by exactly
one step, except that Critical Failure stays; a die of 20 gives `g` raised by
exactly one step, except that Critical Success stays; any other die gives `g`;
and the final degree is one of the four degrees. -/
theorem roll_natural_shift (fn : modFn) (chars : List CharConfig) (i : Nat)
    (char : CharConfig) (rng : Nat → Int) (t : Int)
    (hc : chars[i]? = some char) (hr : 0 ≤ rng i ∧ rng i < 20) (ht : t ≠ 0) :
    ∃ line final, (roll chars fn t rng).lines[i]? = some line ∧
      line.d20 = rng i + 1 ∧ line.degree = some final ∧
      (line.d20 = 1 →
        final = if boundaryDegree line.result t = CriticalFailure then CriticalFailure
          else boundaryDegree line.result t - 1) ∧
      (line.d20 = 20 →
        final = if boundaryDegree line.result t = CriticalSuccess then CriticalSuccess
          else boundaryDegree line.result t + 1) ∧
      (line.d20 ≠ 1 → line.d20 ≠ 20 → final = boundaryDegree line.result t) ∧
      (final = CriticalFailure ∨ final = Failure ∨ final = Success ∨
        final = CriticalSuccess) := by
  have hd : goAdd (rng i) 1 = rng i + 1 := by
    apply wrapInt_of_inInt
    unfold InInt
    omega
  have hg : ∀ x : Int, boundaryDegree x t = 0 ∨ boundaryDegree x t = 1 ∨
      boundaryDegree x t = 2 ∨ boundaryDegree x t = 3 := boundaryDegree_range t
  have hs := naturalShift_cases (rng i + 1) _ (hg (goAdd (rng i + 1) (fn char)))
  refine ⟨rollChar fn t (rng i) char,
    naturalShift (rng i + 1) (boundaryDegree (goAdd (rng i + 1) (fn char)) t),
    roll_line fn t rng chars i char hc, ?_, ?_, ?_, ?_, ?_, ?_⟩
  · simp [rollChar, hd]
  · simp [rollChar, hd, ht]
  · intro h1
    simp only [rollChar, hd] at h1 ⊢
    exact hs.1 h1
  · intro h20
    simp only [rollChar, hd] at h20 ⊢
    exact hs.2.1 h20
  · intro h1 h20
    simp only [rollChar, hd] at h1 h20 ⊢
    exact hs.2.2.1 h1 h20
  · exact hs.2.2.2

theorem roll_natural_shift_witness :
    ∃ line, (roll [sampleChar] Flat 1 (fun _ => 0)).lines[0]? = some line ∧
      line.d20 = 1 ∧ boundaryDegree line.result 1 = Success ∧ line.degree = some Failure := by
  obtain ⟨line, final, h1, h2, h3, h4, _⟩ :=
    roll_natural_shift Flat [sampleChar] 0 sampleChar (fun _ => 0) 1 rfl
      (by decide) (by decide)
  have hl : line = rollChar Flat 1 0 sampleChar := by
    have h := roll_line Flat 1 (fun _ => 0) [sampleChar] 0 sampleChar rfl
    rw [h1] at h
    exact Option.some.inj h
  have hres : boundaryDegree line.result 1 = Success := by rw [hl]; decide
  refine ⟨line, h1, by rw [h2]; rfl, hres, ?_⟩
  rw [h3, h4 (by rw [h2]; rfl), hres]
  rfl

/-! ## Roster search -/

theorem searchFrom_error_iff (f : searchFn) :
    ∀ (l : List CharConfig) (k : Nat),
      (∃ e, searchFrom f k l = Except.error e) ↔ ∀ r ∈ l, f r = false := by
  intro l
  induction l with
  | nil => intro k; simp [searchFrom]
  | cons c cs ih =>
    intro k
    cases hf : f c with
    | true => simp [searchFrom, hf]
    | false => simp [searchFrom, hf, ih (k + 1)]

theorem searchFrom_ok_of_exists (f : searchFn) :
    ∀ (l : List CharConfig) (k : Nat), (∃ r ∈ l, f r = true) →
      ∃ i, searchFrom f k l = Except.ok i := by
  intro l
  induction l with
  | nil => intro k h; simp at h
  | cons c cs ih =>
    intro k h
    cases hf : f c with
    | true => exact ⟨k, by simp [searchFrom, hf]⟩
    | false =>
      have h2 : ∃ r ∈ cs, f r = true := by
        obtain ⟨r, hr, hfr⟩ := h
        rcases List.mem_cons.mp hr with rfl | hr
        · rw [hf] at hfr; cases hfr
        · exact ⟨r, hr, hfr⟩
      obtain ⟨i, hi⟩ := ih (k + 1) h2
      exact ⟨i, by simp [searchFrom, hf, hi]⟩

/-- A successful search returns the first index whose record matches. -/
theorem searchFrom_ok (f : searchFn) :
    ∀ (l : List CharConfig) (k i : Nat), searchFrom f k l = Except.ok i →
      k ≤ i ∧ (∃ r, l[i - k]? = some r ∧ f r = true) ∧
        ∀ j r, j < i - k → l[j]? = some r → f r = false := by
  intro l
  induction l with
  | nil => intro k i h; simp [searchFrom] at h
  | cons c cs ih =>
    intro k i h
    cases hf : f c with
    | true =>
      simp [searchFrom, hf] at h
      subst h
      simp [hf]
    | false =>
      simp only [searchFrom, hf, Bool.not_false, if_true] at h
      obtain ⟨hk, ⟨r, hr, hfr⟩, hlt⟩ := ih (k + 1) i h
      have e : i - k = (i - (k + 1)) + 1 := by omega
      refine ⟨by omega, ⟨r, ?_, hfr⟩, ?_⟩
      · rw [e, List.getElem?_cons_succ]
        exact hr
      · intro j r' hj hr'
        cases j with
        | zero =>
          simp at hr'
          subst hr'
          exact hf
        | succ j' =>
          rw [List.getElem?_cons_succ] at hr'
          exact hlt j' r' (by omega) hr'

theorem searchFrom_append_last (f : searchFn) (x : CharConfig) (hx : f x = true) :
    ∀ (l : List CharConfig) (k : Nat), (∀ r ∈ l, f r = false) →
      searchFrom f k (l ++ [x]) = Except.ok (k + l.length) := by
  intro l
  induction l with
  | nil => intro k _; simp [searchFrom, hx]
  | cons c cs ih =>
    intro k h
    have hc : f c = false := h c (List.mem_cons_self _ _)
    have hcs : ∀ r ∈ cs, f r = false := fun r hr => h r (List.mem_cons_of_mem _ hr)
    have e : k + 1 + cs.length = k + (cs.length + 1) := by omega
    simp only [List.cons_append, searchFrom, hc, Bool.not_false, if_true, List.length_cons]
    exact (ih (k + 1) hcs).trans (by rw [e])

theorem search_result_cases (f : searchFn) (l : List CharConfig) (k : Nat) :
    (∃ e, searchFrom f k l = Except.error e ∧ ∀ r ∈ l, f r = false) ∨
    (∃ i, searchFrom f k l = Except.ok i ∧ ∃ r ∈ l, f r = true) := by
  cases h : searchFrom f k l with
  | error e => exact Or.inl ⟨e, rfl, (searchFrom_error_iff f l k).mp ⟨e, h⟩⟩
  | ok i =>
    obtain ⟨_, ⟨r, hr, hfr⟩, _⟩ := searchFrom_ok f l k i h
    exact Or.inr ⟨i, rfl, r, List.getElem?_mem hr, hfr⟩

/-! ## Adding a character -/

theorem addChar_cases (F : Fold) (c : GameConfig) (char : CharConfig) :
    ((∃ r ∈ c.Chars, F.eq r.Name char.Name = true) ∧
      (c.AddChar F char).1 ≠ none ∧ (c.AddChar F char).2 = c) ∨
    ((∀ r ∈ c.Chars, F.eq r.Name char.Name = false) ∧
      (∃ r ∈ c.Chars, F.eq r.Player char.Player = true) ∧
      (c.AddChar F char).1 ≠ none ∧ (c.AddChar F char).2 = c) ∨
    ((∀ r ∈ c.Chars, F.eq r.Name char.Name = false) ∧
      (∀ r ∈ c.Chars, F.eq r.Player char.Player = false) ∧
      (c.AddChar F char).1 = none ∧
      (c.AddChar F char).2 = { c with Chars := c.Chars ++ [char] }) := by
  unfold GameConfig.AddChar GameConfig.CharByName GameConfig.CharByPlayerName
    GameConfig.searchChars
  rcases search_result_cases (nameSearchFn F char.Name) c.Chars 0 with
    ⟨e, he, hn⟩ | ⟨i, hi, hn⟩
  · rcases search_result_cases (playerSearchFn F char.Player) c.Chars 0 with
      ⟨e2, he2, hp⟩ | ⟨j, hj, hp⟩
    · right; right
      simp only [he, he2]
      exact ⟨hn, hp, by simp, by simp⟩
    · right; left
      simp only [he, hj]
      exact ⟨hn, hp, by simp, by simp⟩
  · left
    simp only [hi]
    exact ⟨hn, by simp, by simp⟩

/-- C7: `AddChar(c)` fails exactly when some record's name equals `c.Name`
case-insensitively or some record's player equals `c.Player`
case-insensitively; when it fails the roster is unchanged, and when it
succeeds the new roster is the old one with `c` appended at the end. -/
theorem addChar_fails_iff_duplicate (F : Fold) (c : GameConfig) (char : CharConfig) :
    ((c.AddChar F char).1 ≠ none ↔
      ((∃ r ∈ c.Chars, F.eq r.Name char.Name = true) ∨
        (∃ r ∈ c.Chars, F.eq r.Player char.Player = true))) ∧
    ((c.AddChar F char).1 ≠ none → (c.AddChar F char).2 = c) ∧
    ((c.AddChar F char).1 = none →
      (c.AddChar F char).2.Chars = c.Chars ++ [char] ∧ (c.AddChar F char).2.path = c.path) := by
  rcases addChar_cases F c char with ⟨hn, he, hc⟩ | ⟨_, hp, he, hc⟩ | ⟨hn, hp, he, hc⟩
  · exact ⟨⟨fun _ => Or.inl hn, fun _ => he⟩, fun _ => hc, fun h => absurd h he⟩
  · exact ⟨⟨fun _ => Or.inr hp, fun _ => he⟩, fun _ => hc, fun h => absurd h he⟩
  · refine ⟨⟨fun h => absurd he h, ?_⟩, fun h => absurd he h, fun _ => by rw [hc]; exact ⟨rfl, rfl⟩⟩
    rintro (⟨r, hr, hfr⟩ | ⟨r, hr, hfr⟩)
    · rw [hn r hr] at hfr; cases hfr
    · rw [hp r hr] at hfr; cases hfr

theorem addChar_fails_iff_duplicate_witness :
    ((worldOf [sampleChar]).conf.AddChar asciiFold
        { sampleChar with Name := "ALICE", Player := "Zed" }).1 ≠ none ∧
    ((worldOf [sampleChar]).conf.AddChar asciiFold
        { sampleChar with Name := "ALICE", Player := "Zed" }).2 = (worldOf [sampleChar]).conf ∧
    ((worldOf [sampleChar]).conf.AddChar asciiFold
        { sampleChar with Name := "Bob", Player := "Ben" }).2.Chars =
      [sampleChar, { sampleChar with Name := "Bob", Player := "Ben" }] := by
  have h1 := addChar_fails_iff_duplicate asciiFold (worldOf [sampleChar]).conf
    { sampleChar with Name := "ALICE", Player := "Zed" }
  have h2 := addChar_fails_iff_duplicate asciiFold (worldOf [sampleChar]).conf
    { sampleChar with Name := "Bob", Player := "Ben" }
  have hfail := h1.1.mpr (Or.inl ⟨sampleChar, by simp [worldOf], by decide⟩)
  exact ⟨hfail, h1.2.1 hfail, (h2.2.2 (by decide)).1⟩

/-- C8: when `AddChar(c)` succeeds, `CharByName(c.Name)` on the resulting
roster succeeds and points at the last record, which equals `c` in every
field. -/
theorem charByName_after_addChar (F : Fold) (c : GameConfig) (char : CharConfig)
    (h : (c.AddChar F char).1 = none) :
    (c.AddChar F char).2.CharByName F char.Name = Except.ok c.Chars.length ∧
    (c.AddChar F char).2.Chars[c.Chars.length]? = some char := by
  rcases addChar_cases F c char with ⟨_, he, _⟩ | ⟨_, _, he, _⟩ | ⟨hn, _, _, hc⟩
  · exact absurd h he
  · exact absurd h he
  · rw [hc]
    refine ⟨?_, by simp⟩
    have hx : nameSearchFn F char.Name char = true := F.refl char.Name
    have := searchFrom_append_last (nameSearchFn F char.Name) char hx c.Chars 0 hn
    simpa [GameConfig.CharByName, GameConfig.searchChars] using this

theorem charByName_after_addChar_witness :
    ((worldOf [sampleChar]).conf.AddChar asciiFold
        { sampleChar with Name := "Bob", Player := "Ben" }).2.CharByName asciiFold "Bob" =
      Except.ok 1 ∧
    ((worldOf [sampleChar]).conf.AddChar asciiFold
        { sampleChar with Name := "Bob", Player := "Ben" }).2.Chars[1]? =
      some { sampleChar with Name := "Bob", Player := "Ben" } :=
  charByName_after_addChar asciiFold (worldOf [sampleChar]).conf
    { sampleChar with Name := "Bob", Player := "Ben" } (by decide)

/-! ## Editing a character -/

theorem updateAt_getElem? (f : CharConfig → CharConfig) :
    ∀ (l : List CharConfig) (i : Nat), (updateAt l i f)[i]? = (l[i]?).map f := by
  intro l
  induction l with
  | nil => intro i; simp [updateAt]
  | cons c cs ih =>
    intro i
    cases i with
    | zero => simp [updateAt]
    | succ j => simp [updateAt, ih j]

theorem getChar_ok_index (F : Fold) (conf : GameConfig) (name player : String) (i : Nat)
    (h : getChar conf F name player = Except.ok i) : ∃ char, conf.Chars[i]? = some char := by
  unfold getChar GameConfig.CharByName GameConfig.CharByPlayerName GameConfig.searchChars at h
  split_ifs at h
  · obtain ⟨_, ⟨r, hr, _⟩, _⟩ := searchFrom_ok _ _ _ _ h
    exact ⟨r, by simpa using hr⟩
  · obtain ⟨_, ⟨r, hr, _⟩, _⟩ := searchFrom_ok _ _ _ _ h
    exact ⟨r, by simpa using hr⟩

theorem mem_sortChars (c : GameConfig) (x : CharConfig) :
    x ∈ c.sortChars.Chars ↔ x ∈ c.Chars := by
  unfold GameConfig.sortChars
  exact (List.perm_insertionSort _ _).mem_iff

/-- The record that an edit has written is in the roster that `Run` leaves. -/
theorem edit_run_mem (F : Fold) (w : World) (cmd : CharacterEditCmd) (fsErr : GoError)
    (i : Nat) (char : CharConfig)
    (hget : getChar w.conf F cmd.Name cmd.Player = Except.ok i)
    (hc : w.conf.Chars[i]? = some char) :
    (cmd.Run F w fsErr).1 = fsErr ∧
    (cmd.edited w.conf i).Chars[i]? = some (cmd.apply char) ∧
    cmd.apply char ∈ (cmd.Run F w fsErr).2.conf.Chars := by
  have he : (cmd.edited w.conf i).Chars[i]? = some (cmd.apply char) := by
    simp [CharacterEditCmd.edited, updateAt_getElem?, hc]
  refine ⟨?_, he, ?_⟩
  · simp [CharacterEditCmd.Run, hget, World.Write]
  · simp only [CharacterEditCmd.Run, hget, World.Write]
    rw [mem_sortChars]
    exact List.getElem?_mem he

theorem parseProf_empty : parseProf "" = ProfUnknown := by decide

theorem parseProf_letters :
    parseProf "U" = ProfUntrained ∧ parseProf "T" = ProfTrained ∧
    parseProf "E" = ProfExpert ∧ parseProf "M" = ProfMaster ∧
    parseProf "L" = ProfLegendary := by decide

/-- C5: an edit with only the selector set does not leave the record as it
was: for every record the three save ranks are overwritten with
`ProfUnknown` (-100) and every other attribute is kept; on the roster holding
`sampleChar` alone, `Run` succeeds and the stored record differs from
`sampleChar`. -/
theorem edit_defaults_overwrites_saves :
    (∀ (name player : String) (char : CharConfig),
      (editDefaults name player).apply char =
        { char with
          Proficiencies.Saves :=
            { Reflex := ProfUnknown, Fortitude := ProfUnknown, Will := ProfUnknown } }) ∧
    ((editDefaults "Alice" "").Run asciiFold (worldOf [sampleChar]) none).1 = none ∧
    ((editDefaults "Alice" "").Run asciiFold (worldOf [sampleChar]) none).2.conf.Chars =
      [{ sampleChar with
          Proficiencies.Saves :=
            { Reflex := ProfUnknown, Fortitude := ProfUnknown, Will := ProfUnknown } }] ∧
    ((editDefaults "Alice" "").Run asciiFold (worldOf [sampleChar]) none).2.conf.Chars ≠
      [sampleChar] := by
  refine ⟨?_, by decide, by decide, by decide⟩
  intro name player char
  simp [CharacterEditCmd.apply, editDefaults, setIfNotEmpty, setIfNotMatching, GoZero.isZero,
    parseProf_empty]

/-- C6: from the empty roster, adding Alice (player Ann), adding Bob (player
Ben) and editing Bob with the new name Alice all succeed, and the roster they
leave holds two records named Alice. -/
theorem edit_new_name_duplicates :
    ((addDefaults "Alice" "Ann").Run asciiFold (worldOf []) none).1 = none ∧
    ((addDefaults "Bob" "Ben").Run asciiFold
      ((addDefaults "Alice" "Ann").Run asciiFold (worldOf []) none).2 none).1 = none ∧
    (({ editDefaults "Bob" "" with NewName := "Alice" } : CharacterEditCmd).Run asciiFold
      ((addDefaults "Bob" "Ben").Run asciiFold
        ((addDefaults "Alice" "Ann").Run asciiFold (worldOf []) none).2 none).2 none).1 = none ∧
    (({ editDefaults "Bob" "" with NewName := "Alice" } : CharacterEditCmd).Run asciiFold
      ((addDefaults "Bob" "Ben").Run asciiFold
        ((addDefaults "Alice" "Ann").Run asciiFold (worldOf []) none).2 none).2
          none).2.conf.Chars.map (fun r => r.Name) = ["Alice", "Alice"] ∧
    (({ editDefaults "Bob" "" with NewName := "Alice" } : CharacterEditCmd).Run asciiFold
      ((addDefaults "Bob" "Ben").Run asciiFold
        ((addDefaults "Alice" "Ann").Run asciiFold (worldOf []) none).2 none).2
          none).2.writes.getLast?.map (fun f => f.2.map (fun r => r.Name)) =
      some ["Alice", "Alice"] ∧
    asciiFold.eq "Alice" "Alice" = true := by
  decide

/-- C9, counterexample: on the roster holding `sampleChar` (strength 1), the
edit of Alice that supplies strength 0 succeeds and leaves the strength at 1,
not at the supplied 0. -/
theorem edit_zero_strength_not_written :
    (({ editDefaults "Alice" "" with Strength := 0 } : CharacterEditCmd).Run asciiFold
      (worldOf [sampleChar]) none).1 = none ∧
    (({ editDefaults "Alice" "" with Strength := 0 } : CharacterEditCmd).Run asciiFold
      (worldOf [sampleChar]) none).2.conf.Chars.map (fun r => r.Modifiers.Strength) = [1] := by
  decide

/-- C9, amended: when the selector of an edit finds a record, the record that
`Run` writes back carries, for each of level, strength, dexterity,
constitution, intellect, wisdom and charisma, the supplied value when that
value is not 0 and the old value when it is 0. -/
theorem edit_int_fields (F : Fold) (w : World) (cmd : CharacterEditCmd) (fsErr : GoError)
    (i : Nat) (hget : getChar w.conf F cmd.Name cmd.Player = Except.ok i) :
    ∃ old new, w.conf.Chars[i]? = some old ∧
      (cmd.edited w.conf i).Chars[i]? = some new ∧
      new ∈ (cmd.Run F w fsErr).2.conf.Chars ∧
      new.Level = (if cmd.Level = 0 then old.Level else cmd.Level) ∧
      new.Modifiers.Strength =
        (if cmd.Strength = 0 then old.Modifiers.Strength else cmd.Strength) ∧
      new.Modifiers.Dexterity =
        (if cmd.Dexterity = 0 then old.Modifiers.Dexterity else cmd.Dexterity) ∧
      new.Modifiers.Constitution =
        (if cmd.Constitution = 0 then old.Modifiers.Constitution else cmd.Constitution) ∧
      new.Modifiers.Intellect =
        (if cmd.Intellect = 0 then old.Modifiers.Intellect else cmd.Intellect) ∧
      new.Modifiers.Wisdom = (if cmd.Wisdom = 0 then old.Modifiers.Wisdom else cmd.Wisdom) ∧
      new.Modifiers.Charisma =
        (if cmd.Charisma = 0 then old.Modifiers.Charisma else cmd.Charisma) := by
  obtain ⟨old, hold⟩ := getChar_ok_index F w.conf cmd.Name cmd.Player i hget
  obtain ⟨_, hed, hmem⟩ := edit_run_mem F w cmd fsErr i old hget hold
  refine ⟨old, cmd.apply old, hold, hed, hmem, ?_, ?_, ?_, ?_, ?_, ?_, ?_⟩ <;>
    simp [CharacterEditCmd.apply, setIfNotEmpty, GoZero.isZero]

theorem edit_int_fields_witness :
    ∃ old new, (worldOf [sampleChar]).conf.Chars[0]? = some old ∧
      new ∈ (({ editDefaults "Alice" "" with Level := 7, Wisdom := 5 } : CharacterEditCmd).Run
        asciiFold (worldOf [sampleChar]) none).2.conf.Chars ∧
      new.Level = 7 ∧ new.Modifiers.Strength = old.Modifiers.Strength ∧
      new.Modifiers.Wisdom = 5 := by
  obtain ⟨old, new, h1, _, h3, h4, h5, _, _, _, h9, _⟩ :=
    edit_int_fields asciiFold (worldOf [sampleChar])
      { editDefaults "Alice" "" with Level := 7, Wisdom := 5 } none 0 rfl
  exact ⟨old, new, h1, h3, h4, h5, h9⟩

/-- C10: supplying `U` for a save rank does not set it: for every request and
record the reflex, fortitude and will ranks are left as they were when their
flag is `U`, whereas the stealth rank becomes Untrained; on the roster holding
`sampleChar` (reflex Trained, stealth Expert), the edit of Alice with reflex
`U` and stealth `U` succeeds and leaves reflex Trained and stealth
Untrained. -/
theorem edit_save_rank_U_ignored :
    (∀ (cmd : CharacterEditCmd) (char : CharConfig),
      (({ cmd with Reflex := "U" } : CharacterEditCmd).apply char).Proficiencies.Saves.Reflex =
        char.Proficiencies.Saves.Reflex ∧
      (({ cmd with Fortitude := "U" } : CharacterEditCmd).apply
          char).Proficiencies.Saves.Fortitude = char.Proficiencies.Saves.Fortitude ∧
      (({ cmd with Will := "U" } : CharacterEditCmd).apply char).Proficiencies.Saves.Will =
        char.Proficiencies.Saves.Will ∧
      (({ cmd with Stealth := "U" } : CharacterEditCmd).apply char).Proficiencies.Stealth =
        ProfUntrained) ∧
    sampleChar.Proficiencies.Saves.Reflex = ProfTrained ∧
    (({ editDefaults "Alice" "" with Reflex := "U", Stealth := "U" } : CharacterEditCmd).Run
      asciiFold (worldOf [sampleChar]) none).1 = none ∧
    (({ editDefaults "Alice" "" with Reflex := "U", Stealth := "U" } : CharacterEditCmd).Run
      asciiFold (worldOf [sampleChar]) none).2.conf.Chars.map
        (fun r => (r.Proficiencies.Saves.Reflex, r.Proficiencies.Stealth)) =
      [(ProfTrained, ProfUntrained)] := by
  refine ⟨?_, by decide, by decide, by decide⟩
  intro cmd char
  simp [CharacterEditCmd.apply, setIfNotEmpty, setIfNotMatching, GoZero.isZero,
    parseProf_letters.1]

/-! ## Finding a character -/

theorem searchFrom_error_msg (f : searchFn) :
    ∀ (l : List CharConfig) (k : Nat) (e : String),
      searchFrom f k l = Except.error e → e = "character not found" := by
  intro l
  induction l with
  | nil =>
    intro k e h
    simp only [searchFrom, Except.error.injEq] at h
    exact h.symm
  | cons c cs ih =>
    intro k e h
    cases hf : f c with
    | true => simp [searchFrom, hf] at h
    | false =>
      simp only [searchFrom, hf, Bool.not_false, if_true] at h
      exact ih (k + 1) e h

/-- What `searchChars` returns, in terms of the records that match. -/
theorem searchChars_spec (c : GameConfig) (f : searchFn) :
    (c.searchChars f = Except.error "character not found" ↔ ∀ r ∈ c.Chars, f r = false) ∧
    (∀ e, c.searchChars f = Except.error e → e = "character not found") ∧
    (∀ i, c.searchChars f = Except.ok i →
      ∃ r, c.Chars[i]? = some r ∧ f r = true ∧
        ∀ j r2, j < i → c.Chars[j]? = some r2 → f r2 = false) ∧
    ((∃ r ∈ c.Chars, f r = true) → ∃ i, c.searchChars f = Except.ok i) := by
  unfold GameConfig.searchChars
  refine ⟨⟨fun h => (searchFrom_error_iff f c.Chars 0).mp ⟨_, h⟩, fun h => ?_⟩,
    searchFrom_error_msg f c.Chars 0, fun i h => ?_, searchFrom_ok_of_exists f c.Chars 0⟩
  · obtain ⟨e, he⟩ := (searchFrom_error_iff f c.Chars 0).mpr h
    rw [he, searchFrom_error_msg f c.Chars 0 e he]
  · obtain ⟨_, ⟨r, hr, hfr⟩, hlt⟩ := searchFrom_ok f c.Chars 0 i h
    exact ⟨r, by simpa using hr, hfr, fun j r2 hj hr2 => hlt j r2 (by simpa using hj) hr2⟩

/-- C13: `CharByName` and `CharByPlayerName` fail, with not-found, exactly
when no record matches the key case-insensitively; otherwise they return the
index of a matching record such that no record before it matches. -/
theorem charBy_first_match (F : Fold) (c : GameConfig) (key : String) :
    ((c.CharByName F key = Except.error "character not found" ↔
        ∀ r ∈ c.Chars, F.eq r.Name key = false) ∧
      (∀ e, c.CharByName F key = Except.error e → e = "character not found") ∧
      ((∃ r ∈ c.Chars, F.eq r.Name key = true) → ∃ i, c.CharByName F key = Except.ok i) ∧
      (∀ i, c.CharByName F key = Except.ok i →
        ∃ r, c.Chars[i]? = some r ∧ F.eq r.Name key = true ∧
          ∀ j r2, j < i → c.Chars[j]? = some r2 → F.eq r2.Name key = false)) ∧
    ((c.CharByPlayerName F key = Except.error "character not found" ↔
        ∀ r ∈ c.Chars, F.eq r.Player key = false) ∧
      (∀ e, c.CharByPlayerName F key = Except.error e → e = "character not found") ∧
      ((∃ r ∈ c.Chars, F.eq r.Player key = true) →
        ∃ i, c.CharByPlayerName F key = Except.ok i) ∧
      (∀ i, c.CharByPlayerName F key = Except.ok i →
        ∃ r, c.Chars[i]? = some r ∧ F.eq r.Player key = true ∧
          ∀ j r2, j < i → c.Chars[j]? = some r2 → F.eq r2.Player key = false)) := by
  obtain ⟨n1, n2, n3, n4⟩ := searchChars_spec c (nameSearchFn F key)
  obtain ⟨p1, p2, p3, p4⟩ := searchChars_spec c (playerSearchFn F key)
  exact ⟨⟨n1, n2, n4, n3⟩, ⟨p1, p2, p4, p3⟩⟩

theorem charBy_first_match_witness :
    ∃ r, (worldOf [sampleChar, { sampleChar with Player := "Ben" }]).conf.Chars[0]? = some r ∧
      asciiFold.eq r.Name "alice" = true :=
  have h := (charBy_first_match asciiFold
    (worldOf [sampleChar, { sampleChar with Player := "Ben" }]).conf "alice").1.2.2.2 0 rfl
  h.elim fun r hr => ⟨r, hr.1, hr.2.1⟩

/-! ## Removing a character -/

theorem swapRemove_perm :
    ∀ (l : List CharConfig) (i : Nat) (r : CharConfig), l[i]? = some r →
      List.Perm (r :: (swapChars l i (l.length - 1)).take (l.length - 1)) l := by
  intro l
  induction l with
  | nil => intro i r h; simp at h
  | cons c cs ih =>
    intro i r h
    cases cs with
    | nil =>
      cases i with
      | zero =>
        simp at h
        subst h
        simp [swapChars]
      | succ j => simp at h
    | cons d ds =>
      obtain ⟨b, hb⟩ : ∃ b, (d :: ds)[ds.length]? = some b :=
        ⟨(d :: ds)[ds.length], by simp⟩
      cases i with
      | zero =>
        simp at h
        subst h
        have hlast : (d :: ds).dropLast ++ [b] = d :: ds := by
          apply List.dropLast_append_getLast?
          rw [List.getLast?_eq_getElem?]
          simpa using hb
        have e : (swapChars (c :: d :: ds) 0 ((c :: d :: ds).length - 1)).take
            ((c :: d :: ds).length - 1) = b :: (d :: ds).dropLast := by
          simp only [swapChars, List.length_cons, Nat.add_sub_cancel, List.getElem?_cons_zero,
            List.getElem?_cons_succ, hb, List.set_cons_zero, List.set_cons_succ,
            List.take_succ_cons]
          congr 1
          rw [List.dropLast_eq_take, List.set_take]
          simp only [List.length_cons, Nat.add_sub_cancel]
          apply List.set_eq_of_length_le
          simp
        rw [e]
        have : List.Perm (b :: (d :: ds).dropLast) (d :: ds) := by
          have h1 : List.Perm (b :: (d :: ds).dropLast) ((d :: ds).dropLast ++ [b]) :=
            (List.perm_append_singleton b _).symm
          rw [hlast] at h1
          exact h1
        exact List.Perm.cons c this
      | succ j =>
        rw [List.getElem?_cons_succ] at h
        have e : (swapChars (c :: d :: ds) (j + 1) ((c :: d :: ds).length - 1)).take
            ((c :: d :: ds).length - 1) =
            c :: (swapChars (d :: ds) j ((d :: ds).length - 1)).take ((d :: ds).length - 1) := by
          simp only [swapChars, List.length_cons, Nat.add_sub_cancel, List.getElem?_cons_succ, h,
            hb, List.set_cons_succ, List.take_succ_cons]
        rw [e]
        exact (List.Perm.swap c r _).trans (List.Perm.cons c (ih j r h))

theorem swapChars_length (l : List CharConfig) (i j : Nat) :
    (swapChars l i j).length = l.length := by
  unfold swapChars
  split <;> simp

/-- The swap-and-truncate of the remove operations, for a search function. -/
theorem swapRemove_spec (c : GameConfig) (f : searchFn) :
    ((∀ r ∈ c.Chars, f r = false) ∧
      c.searchChars f = Except.error "character not found") ∨
    (∃ i r, c.searchChars f = Except.ok i ∧ r ∈ c.Chars ∧ f r = true ∧
      List.Perm (r :: (swapChars c.Chars i (c.Chars.length - 1)).take (c.Chars.length - 1))
        c.Chars) := by
  obtain ⟨h1, _, h3, h4⟩ := searchChars_spec c f
  by_cases hex : ∃ r ∈ c.Chars, f r = true
  · obtain ⟨i, hi⟩ := h4 hex
    obtain ⟨r, hr, hfr, _⟩ := h3 i hi
    exact Or.inr ⟨i, r, hi, List.getElem?_mem hr, hfr, swapRemove_perm c.Chars i r hr⟩
  · have hall : ∀ r ∈ c.Chars, f r = false := by
      intro r hr
      cases hf : f r with
      | false => rfl
      | true => exact absurd ⟨r, hr, hf⟩ hex
    exact Or.inl ⟨hall, h1.mpr hall⟩

theorem removeByName_cases (F : Fold) (c : GameConfig) (key : String) :
    ((∀ r ∈ c.Chars, F.eq r.Name key = false) ∧
      c.RemoveCharByName F key = (some "character not found", c)) ∨
    (∃ r, r ∈ c.Chars ∧ F.eq r.Name key = true ∧ (c.RemoveCharByName F key).1 = none ∧
      (c.RemoveCharByName F key).2.path = c.path ∧
      List.Perm (r :: (c.RemoveCharByName F key).2.Chars) c.Chars) := by
  rcases swapRemove_spec c (nameSearchFn F key) with ⟨hall, he⟩ | ⟨i, r, hi, hr, hfr, hp⟩
  · exact Or.inl ⟨hall, by simp [GameConfig.RemoveCharByName, he]⟩
  · refine Or.inr ⟨r, hr, hfr, ?_, ?_, ?_⟩
    · simp [GameConfig.RemoveCharByName, hi]
    · simp [GameConfig.RemoveCharByName, hi, GameConfig.sortChars]
    · simp only [GameConfig.RemoveCharByName, hi, GameConfig.sortChars, swapChars_length]
      exact (List.Perm.cons r (List.perm_insertionSort _ _)).trans hp

theorem removeByPlayer_cases (F : Fold) (c : GameConfig) (key : String) :
    ((∀ r ∈ c.Chars, F.eq r.Player key = false) ∧
      c.RemoveCharByPlayerName F key = (some "character not found", c)) ∨
    (∃ r, r ∈ c.Chars ∧ F.eq r.Player key = true ∧
      (c.RemoveCharByPlayerName F key).1 = none ∧
      (c.RemoveCharByPlayerName F key).2.path = c.path ∧
      List.Perm (r :: (c.RemoveCharByPlayerName F key).2.Chars) c.Chars) := by
  rcases swapRemove_spec c (playerSearchFn F key) with ⟨hall, he⟩ | ⟨i, r, hi, hr, hfr, hp⟩
  · exact Or.inl ⟨hall, by simp [GameConfig.RemoveCharByPlayerName, he]⟩
  · refine Or.inr ⟨r, hr, hfr, ?_, ?_, ?_⟩
    · simp [GameConfig.RemoveCharByPlayerName, hi]
    · simp [GameConfig.RemoveCharByPlayerName, hi]
    · simp only [GameConfig.RemoveCharByPlayerName, hi, swapChars_length]
      exact hp

/-- C11: for `RemoveCharByName` and `RemoveCharByPlayerName`, when no record
matches the key case-insensitively the call fails with not-found and the
roster is unchanged; otherwise it succeeds and the old roster is, up to
order, the new roster plus one record that matches the key. -/
theorem remove_exactly_one_match (F : Fold) (c : GameConfig) (key : String) :
    ((∀ r ∈ c.Chars, F.eq r.Name key = false) →
      c.RemoveCharByName F key = (some "character not found", c)) ∧
    ((∃ r ∈ c.Chars, F.eq r.Name key = true) →
      (c.RemoveCharByName F key).1 = none ∧
      ∃ r, r ∈ c.Chars ∧ F.eq r.Name key = true ∧
        List.Perm (r :: (c.RemoveCharByName F key).2.Chars) c.Chars) ∧
    ((∀ r ∈ c.Chars, F.eq r.Player key = false) →
      c.RemoveCharByPlayerName F key = (some "character not found", c)) ∧
    ((∃ r ∈ c.Chars, F.eq r.Player key = true) →
      (c.RemoveCharByPlayerName F key).1 = none ∧
      ∃ r, r ∈ c.Chars ∧ F.eq r.Player key = true ∧
        List.Perm (r :: (c.RemoveCharByPlayerName F key).2.Chars) c.Chars) := by
  refine ⟨fun hall => ?_, fun hex => ?_, fun hall => ?_, fun hex => ?_⟩
  · rcases removeByName_cases F c key with ⟨_, h⟩ | ⟨r, hr, hfr, _⟩
    · exact h
    · rw [hall r hr] at hfr; cases hfr
  · rcases removeByName_cases F c key with ⟨hall, _⟩ | ⟨r, hr, hfr, he, _, hp⟩
    · obtain ⟨r, hr, hfr⟩ := hex
      rw [hall r hr] at hfr; cases hfr
    · exact ⟨he, r, hr, hfr, hp⟩
  · rcases removeByPlayer_cases F c key with ⟨_, h⟩ | ⟨r, hr, hfr, _⟩
    · exact h
    · rw [hall r hr] at hfr; cases hfr
  · rcases removeByPlayer_cases F c key with ⟨hall, _⟩ | ⟨r, hr, hfr, he, _, hp⟩
    · obtain ⟨r, hr, hfr⟩ := hex
      rw [hall r hr] at hfr; cases hfr
    · exact ⟨he, r, hr, hfr, hp⟩

theorem remove_exactly_one_match_witness :
    ((worldOf [sampleChar, { sampleChar with Name := "Bob", Player := "Ben" }]).conf.RemoveCharByName
      asciiFold "ALICE").1 = none ∧
    (worldOf [sampleChar, { sampleChar with Name := "Bob", Player := "Ben" }]).conf.RemoveCharByName
      asciiFold "Carol" =
        (some "character not found",
          (worldOf [sampleChar, { sampleChar with Name := "Bob", Player := "Ben" }]).conf) :=
  have h := remove_exactly_one_match asciiFold
    (worldOf [sampleChar, { sampleChar with Name := "Bob", Player := "Ben" }]).conf "ALICE"
  have h2 := remove_exactly_one_match asciiFold
    (worldOf [sampleChar, { sampleChar with Name := "Bob", Player := "Ben" }]).conf "Carol"
  ⟨(h.2.1 ⟨sampleChar, by simp [worldOf], by decide⟩).1, h2.1 (by decide)⟩

/-- C12, counterexample: on a roster with two records named Alice,
`RemoveCharByName` of Alice succeeds and `CharByName` of Alice on the result
still finds a record. -/
theorem remove_then_find_duplicate :
    ((worldOf [sampleChar, { sampleChar with Player := "Ben" }]).conf.RemoveCharByName
      asciiFold "Alice").1 = none ∧
    ((worldOf [sampleChar, { sampleChar with Player := "Ben" }]).conf.RemoveCharByName
      asciiFold "Alice").2.CharByName asciiFold "Alice" = Except.ok 0 :=
  ⟨by decide, rfl⟩

/-- C12, amended: on a roster in which at most one record's name equals the
name case-insensitively, when `RemoveCharByName` of that name succeeds,
`CharByName` of it on the resulting roster fails with not-found. -/
theorem remove_then_find_fails (F : Fold) (c : GameConfig) (name : String)
    (hu : c.Chars.countP (nameSearchFn F name) ≤ 1)
    (h : (c.RemoveCharByName F name).1 = none) :
    (c.RemoveCharByName F name).2.CharByName F name =
      Except.error "character not found" := by
  rcases removeByName_cases F c name with ⟨_, he⟩ | ⟨r, _, hfr, _, _, hp⟩
  · rw [he] at h; cases h
  · have hc := hp.countP_eq (nameSearchFn F name)
    have hr : nameSearchFn F name r = true := hfr
    rw [List.countP_cons, if_pos hr] at hc
    have hz : List.countP (nameSearchFn F name) (c.RemoveCharByName F name).2.Chars = 0 := by
      omega
    rw [List.countP_eq_zero] at hz
    apply (searchChars_spec (c.RemoveCharByName F name).2 (nameSearchFn F name)).1.mpr
    intro x hx
    simpa using hz x hx

theorem remove_then_find_fails_witness :
    ((worldOf [sampleChar, { sampleChar with Name := "Bob", Player := "Ben" }]).conf.RemoveCharByName
      asciiFold "Alice").2.CharByName asciiFold "Alice" =
        Except.error "character not found" :=
  remove_then_find_fails asciiFold
    (worldOf [sampleChar, { sampleChar with Name := "Bob", Player := "Ben" }]).conf "Alice"
    (by decide) (by decide)

/-! ## Persisting the roster -/

theorem runesLess_asymm : ∀ (a b : List Char), runesLess a b = true → runesLess b a = false := by
  intro a
  induction a with
  | nil =>
    intro b h
    cases b with
    | nil => simp [runesLess] at h
    | cons y ys => simp [runesLess]
  | cons x xs ih =>
    intro b h
    cases b with
    | nil => simp [runesLess] at h
    | cons y ys =>
      simp only [runesLess] at h ⊢
      split_ifs at h ⊢
      all_goals first
        | omega
        | rfl
        | exact ih ys h

theorem runesLess_negTrans :
    ∀ (c a b : List Char), runesLess c a = true → runesLess c b = true ∨ runesLess b a = true := by
  intro c
  induction c with
  | nil =>
    intro a b h
    cases a with
    | nil => simp [runesLess] at h
    | cons x xs =>
      cases b with
      | nil => right; simp [runesLess]
      | cons y ys => left; simp [runesLess]
  | cons z zs ih =>
    intro a b h
    cases a with
    | nil => simp [runesLess] at h
    | cons x xs =>
      cases b with
      | nil => right; simp [runesLess]
      | cons y ys =>
        simp only [runesLess] at h ⊢
        split_ifs at h ⊢
        all_goals first
          | omega
          | (left; rfl)
          | (right; rfl)
          | exact ih xs ys h

theorem write_order_total (a b : CharConfig) :
    stringLess b.Name a.Name = false ∨ stringLess a.Name b.Name = false := by
  cases h : stringLess b.Name a.Name with
  | false => exact Or.inl rfl
  | true => exact Or.inr (runesLess_asymm _ _ h)

theorem write_order_trans (a b c : CharConfig) (h1 : stringLess b.Name a.Name = false)
    (h2 : stringLess c.Name b.Name = false) : stringLess c.Name a.Name = false := by
  cases h : stringLess c.Name a.Name with
  | false => rfl
  | true =>
    rcases runesLess_negTrans _ _ b.Name.data h with h3 | h3
    · unfold stringLess at h2; rw [h3] at h2; cases h2
    · unfold stringLess at h1; rw [h3] at h1; cases h1

theorem sortChars_sorted (c : GameConfig) :
    List.Pairwise (fun a b => stringLess b.Name a.Name = false) c.sortChars.Chars := by
  haveI : IsTotal CharConfig (fun a b => stringLess b.Name a.Name = false) :=
    ⟨write_order_total⟩
  haveI : IsTrans CharConfig (fun a b => stringLess b.Name a.Name = false) :=
    ⟨write_order_trans⟩
  exact List.sorted_insertionSort (fun a b => stringLess b.Name a.Name = false) c.Chars

/-- C17: the record sequence that `Write` hands to `os.WriteFile` is a
permutation of the roster in memory and is ordered by non-decreasing `Name`:
no record is followed by one whose name is smaller. -/
theorem write_sorted_permutation (w : World) (fsErr : GoError) :
    ∃ recs, (w.Write fsErr).2.writes = w.writes ++ [(w.conf.path, recs)] ∧
      (w.Write fsErr).1 = fsErr ∧
      List.Perm recs w.conf.Chars ∧
      List.Pairwise (fun a b => stringLess b.Name a.Name = false) recs ∧
      (∀ (i j : Nat) (a b : CharConfig), i < j → recs[i]? = some a → recs[j]? = some b →
        stringLess b.Name a.Name = false) := by
  refine ⟨w.conf.sortChars.Chars, rfl, rfl, List.perm_insertionSort _ _, sortChars_sorted w.conf,
    ?_⟩
  intro i j a b hij ha hb
  have hp := sortChars_sorted w.conf
  rw [List.pairwise_iff_getElem] at hp
  obtain ⟨hi, rfl⟩ := List.getElem?_eq_some.mp ha
  obtain ⟨hj, rfl⟩ := List.getElem?_eq_some.mp hb
  exact hp i j hi hj hij

/-! ## Roll output -/

/-- C14: `roll` prints a degree exactly when the target is not 0: with target
0 (the default of the `Target` field, also when 0 is given) no line carries a
degree and no header is printed, only die value, modifier and total; with any
other target every line carries exactly one degree; `runRoll` passes the
`Target` field to `roll` unchanged. -/
theorem roll_degree_iff_target (fn : modFn) (chars : List CharConfig) (i : Nat)
    (char : CharConfig) (rng : Nat → Int) (t : Int) (hc : chars[i]? = some char) :
    (∃ line, (roll chars fn t rng).lines[i]? = some line ∧
      line.d20 = goAdd (rng i) 1 ∧ line.result = goAdd line.d20 (fn char) ∧
      (t = 0 → line.degree = none ∧ (roll chars fn t rng).header = none) ∧
      (t ≠ 0 → (∃ d, line.degree = some d) ∧ (roll chars fn t rng).header = some t) ∧
      (line.degree.isSome = true ↔ t ≠ 0)) ∧
    (∀ (conf : GameConfig) (F : Fold) (opts : RollOpts) (out : RollOutput),
      (runRoll conf F opts fn rng).2 = some out →
        ∃ cs, out = roll cs fn opts.Target rng) := by
  refine ⟨⟨rollChar fn t (rng i) char, roll_line fn t rng chars i char hc, rfl, rfl, ?_, ?_, ?_⟩,
    ?_⟩
  · intro h
    simp [rollChar, roll, h]
  · intro h
    simp [rollChar, roll, h]
  · by_cases h : t = 0 <;> simp [rollChar, h]
  · intro conf F opts out h
    unfold runRoll at h
    split_ifs at h
    · exact ⟨conf.AllChars, (Option.some.inj h).symm⟩
    · split at h
      · cases h
      · exact ⟨_, (Option.some.inj h).symm⟩

theorem roll_degree_iff_target_witness :
    ∃ line, (roll [sampleChar] Perception 0 (fun _ => 9)).lines[0]? = some line ∧
      line.degree = none ∧ (roll [sampleChar] Perception 0 (fun _ => 9)).header = none := by
  obtain ⟨⟨line, h1, _, _, h4, _⟩, _⟩ :=
    roll_degree_iff_target Perception [sampleChar] 0 sampleChar (fun _ => 9) 0 rfl
  exact ⟨line, h1, (h4 rfl).1, (h4 rfl).2⟩

/-- C18: when `Intn(20)` returns `r` with `0 <= r < 20`, the die value that
`roll` uses for a character is `r + 1`, which lies in 1..20, the modifier is
what the statistic function returns for that character, and the reported
total is die value + modifier (in Go `int` arithmetic, and in exact integers
whenever that sum is representable). -/
theorem roll_die_and_total (fn : modFn) (chars : List CharConfig) (i : Nat)
    (char : CharConfig) (rng : Nat → Int) (t : Int)
    (hc : chars[i]? = some char) (hr : 0 ≤ rng i ∧ rng i < 20) :
    ∃ line, (roll chars fn t rng).lines[i]? = some line ∧
      line.d20 = rng i + 1 ∧ 1 ≤ line.d20 ∧ line.d20 ≤ 20 ∧
      line.mod = fn char ∧
      line.result = goAdd line.d20 line.mod ∧
      (InInt (line.d20 + line.mod) → line.result = line.d20 + line.mod) ∧
      line.Name = char.Name ∧ line.Player = char.Player := by
  have hd : goAdd (rng i) 1 = rng i + 1 := by
    apply wrapInt_of_inInt
    unfold InInt
    omega
  have h1 : (rollChar fn t (rng i) char).d20 = rng i + 1 := by simp [rollChar, hd]
  refine ⟨rollChar fn t (rng i) char, roll_line fn t rng chars i char hc, h1, ?_, ?_, rfl, rfl,
    ?_, rfl, rfl⟩
  · rw [h1]; omega
  · rw [h1]; omega
  · intro h
    exact wrapInt_of_inInt h

theorem roll_die_and_total_witness :
    ∃ line, (roll [sampleChar] Arcana 0 (fun _ => 19)).lines[0]? = some line ∧
      line.d20 = 20 ∧ line.mod = 9 ∧ line.result = 29 := by
  obtain ⟨line, h1, h2, _, _, h5, h6, h7, _⟩ :=
    roll_die_and_total Arcana [sampleChar] 0 sampleChar (fun _ => 19) 0 rfl (by decide)
  have hm : line.mod = 9 := by rw [h5]; decide
  have hd : line.d20 = 20 := by rw [h2]; rfl
  refine ⟨line, h1, hd, hm, ?_⟩
  rw [h7 (by rw [hd, hm]; decide), hd, hm]
  rfl

/-- C15: every statistic is `calcMod` of the ability modifier the table
names, the character's own rank for that statistic and its level, with no
other adjustment: Perception, Will save, Nature and Religion use wisdom,
Reflex save dexterity, Fortitude save constitution, Arcana and Occultism
intellect; and `Flat` is 0 for every character. -/
theorem statistics_table (c : CharConfig) :
    Perception c = calcMod c.Modifiers.Wisdom c.Proficiencies.Perception c.Level ∧
    WillSave c = calcMod c.Modifiers.Wisdom c.Proficiencies.Saves.Will c.Level ∧
    Nature c = calcMod c.Modifiers.Wisdom c.Proficiencies.IdentifySkills.Nature c.Level ∧
    Religion c = calcMod c.Modifiers.Wisdom c.Proficiencies.IdentifySkills.Religion c.Level ∧
    ReflexSave c = calcMod c.Modifiers.Dexterity c.Proficiencies.Saves.Reflex c.Level ∧
    FortitudeSave c =
      calcMod c.Modifiers.Constitution c.Proficiencies.Saves.Fortitude c.Level ∧
    Arcana c = calcMod c.Modifiers.Intellect c.Proficiencies.IdentifySkills.Arcana c.Level ∧
    Occultism c =
      calcMod c.Modifiers.Intellect c.Proficiencies.IdentifySkills.Occultism c.Level ∧
    Flat c = 0 :=
  ⟨rfl, rfl, rfl, rfl, rfl, rfl, rfl, rfl, rfl⟩

/-! ## Loading -/

/-- C19: when reading the file fails because it does not exist, `LoadConfig`
returns no error and a roster with zero characters bound to the path; when
reading fails for any other reason it returns an error and no roster. -/
theorem loadConfig_read_failure (path msg : String)
    (unmarshal : String → List CharConfig × GoError) :
    LoadConfig path (ReadResult.failed msg true) unmarshal =
      (some { Chars := [], path := path }, none) ∧
    (LoadConfig path (ReadResult.failed msg false) unmarshal).2 ≠ none ∧
    (LoadConfig path (ReadResult.failed msg false) unmarshal).1 = none :=
  ⟨rfl, by simp [LoadConfig], rfl⟩

theorem removeByName_no_match (F : Fold) (c : GameConfig) (key : String)
    (h : ∀ r ∈ c.Chars, F.eq r.Name key = false) :
    c.RemoveCharByName F key = (some "character not found", c) := by
  rcases removeByName_cases F c key with ⟨_, he⟩ | ⟨r, hr, hfr, _⟩
  · exact he
  · rw [h r hr] at hfr; cases hfr

theorem removeByPlayer_no_match (F : Fold) (c : GameConfig) (key : String)
    (h : ∀ r ∈ c.Chars, F.eq r.Player key = false) :
    c.RemoveCharByPlayerName F key = (some "character not found", c) := by
  rcases removeByPlayer_cases F c key with ⟨_, he⟩ | ⟨r, hr, hfr, _⟩
  · exact he
  · rw [h r hr] at hfr; cases hfr

/-! ## Failed commands and the frame of an edit -/

theorem getChar_error_of_no_match (F : Fold) (conf : GameConfig) (name player : String)
    (hn : name ≠ "" → ∀ r ∈ conf.Chars, F.eq r.Name name = false)
    (hp : name = "" → ∀ r ∈ conf.Chars, F.eq r.Player player = false) :
    getChar conf F name player = Except.error "character not found" := by
  unfold getChar GameConfig.CharByName GameConfig.CharByPlayerName
  split_ifs with h
  · exact (searchChars_spec conf (nameSearchFn F name)).1.mpr (hn h)
  · exact (searchChars_spec conf (playerSearchFn F player)).1.mpr (hp (not_not.mp h))

/-- C16: a failed mutating command makes no call of `os.WriteFile`: when
`CharacterAddCmd.Run` meets a duplicate name or player, and when
`CharacterRemoveCmd.Run` or `CharacterEditCmd.Run` find no record matching
their selector, `Run` returns an error and leaves the roster in memory and the
log of writes as they were, whatever `os.WriteFile` would have returned. -/
theorem failed_run_writes_nothing (F : Fold) (w : World) (fsErr : GoError) :
    (∀ cmd : CharacterAddCmd,
      ((∃ r ∈ w.conf.Chars, F.eq r.Name cmd.Name = true) ∨
        (∃ r ∈ w.conf.Chars, F.eq r.Player cmd.Player = true)) →
      (cmd.Run F w fsErr).1 ≠ none ∧ (cmd.Run F w fsErr).2 = w) ∧
    (∀ cmd : CharacterRemoveCmd,
      (cmd.Name ≠ "" → ∀ r ∈ w.conf.Chars, F.eq r.Name cmd.Name = false) →
      (cmd.Name = "" → ∀ r ∈ w.conf.Chars, F.eq r.Player cmd.Player = false) →
      (cmd.Run F w fsErr).1 = some "character not found" ∧ (cmd.Run F w fsErr).2 = w) ∧
    (∀ cmd : CharacterEditCmd,
      (cmd.Name ≠ "" → ∀ r ∈ w.conf.Chars, F.eq r.Name cmd.Name = false) →
      (cmd.Name = "" → ∀ r ∈ w.conf.Chars, F.eq r.Player cmd.Player = false) →
      (cmd.Run F w fsErr).1 = some "character not found" ∧ (cmd.Run F w fsErr).2 = w) := by
  refine ⟨fun cmd hdup => ?_, fun cmd hn hp => ?_, fun cmd hn hp => ?_⟩
  · have hfail : (w.conf.AddChar F cmd.char).1 ≠ none ∧ (w.conf.AddChar F cmd.char).2 = w.conf := by
      rcases addChar_cases F w.conf cmd.char with ⟨_, he, hc⟩ | ⟨_, _, he, hc⟩ | ⟨h1, h2, _, _⟩
      · exact ⟨he, hc⟩
      · exact ⟨he, hc⟩
      · rcases hdup with ⟨r, hr, hfr⟩ | ⟨r, hr, hfr⟩
        · have := h1 r hr
          simp only [CharacterAddCmd.char] at this
          rw [this] at hfr; cases hfr
        · have := h2 r hr
          simp only [CharacterAddCmd.char] at this
          rw [this] at hfr; cases hfr
    unfold CharacterAddCmd.Run
    rcases hres : w.conf.AddChar F cmd.char with ⟨e, conf⟩
    rw [hres] at hfail
    cases e with
    | none => exact absurd rfl hfail.1
    | some err =>
      simp only at hfail ⊢
      rw [hfail.2]
      exact ⟨by simp, rfl⟩
  · unfold CharacterRemoveCmd.Run
    by_cases h : cmd.Name = ""
    · have hr : w.conf.RemoveCharByPlayerName F cmd.Player =
          (some "character not found", w.conf) :=
        (removeByPlayer_no_match F w.conf cmd.Player) (hp h)
      rw [if_neg (by simp [h]), hr]
      exact ⟨rfl, rfl⟩
    · have hr : w.conf.RemoveCharByName F cmd.Name = (some "character not found", w.conf) :=
        (removeByName_no_match F w.conf cmd.Name) (hn h)
      rw [if_pos h, hr]
      exact ⟨rfl, rfl⟩
  · unfold CharacterEditCmd.Run
    rw [getChar_error_of_no_match F w.conf cmd.Name cmd.Player hn hp]
    exact ⟨rfl, rfl⟩

theorem failed_run_writes_nothing_witness :
    ((addDefaults "alice" "Zed").Run asciiFold (worldOf [sampleChar]) none).1 ≠ none ∧
    ((addDefaults "alice" "Zed").Run asciiFold (worldOf [sampleChar]) none).2.writes = [] ∧
    (({ Name := "Bob", Player := "" } : CharacterRemoveCmd).Run asciiFold
      (worldOf [sampleChar]) none).2.writes = [] ∧
    ((editDefaults "" "Ben").Run asciiFold (worldOf [sampleChar]) none).2.writes = [] := by
  obtain ⟨ha, hr, he⟩ := failed_run_writes_nothing asciiFold (worldOf [sampleChar]) none
  have h1 := ha (addDefaults "alice" "Zed") (Or.inl ⟨sampleChar, by simp [worldOf], by decide⟩)
  have h2 := hr { Name := "Bob", Player := "" } (fun _ => by decide) (fun _ => by decide)
  have h3 := he (editDefaults "" "Ben") (fun _ => by decide) (fun _ => by decide)
  exact ⟨h1.1, by rw [h1.2]; rfl, by rw [h2.2]; rfl, by rw [h3.2]; rfl⟩

theorem updateAt_length (f : CharConfig → CharConfig) :
    ∀ (l : List CharConfig) (i : Nat), (updateAt l i f).length = l.length := by
  intro l
  induction l with
  | nil => intro i; simp [updateAt]
  | cons c cs ih =>
    intro i
    cases i with
    | zero => simp [updateAt]
    | succ j => simp [updateAt, ih j]

theorem updateAt_getElem?_ne (f : CharConfig → CharConfig) :
    ∀ (l : List CharConfig) (i j : Nat), j ≠ i → (updateAt l i f)[j]? = l[j]? := by
  intro l
  induction l with
  | nil => intro i j _; simp [updateAt]
  | cons c cs ih =>
    intro i j h
    cases i with
    | zero =>
      cases j with
      | zero => exact absurd rfl h
      | succ k => simp [updateAt]
    | succ m =>
      cases j with
      | zero => simp [updateAt]
      | succ k =>
        simp only [updateAt, List.getElem?_cons_succ]
        exact ih m k (by omega)

/-- C20: when the selector of an edit matches, the index `i` that `getChar`
returns is the first whose record matches; after the field updates of `Run`
and before its `Write`, the roster has the same length, every record at
another index is unchanged and the record at `i` is the updated one; `Run`
then persists that roster. -/
theorem edit_touches_selected_only (F : Fold) (w : World) (cmd : CharacterEditCmd)
    (fsErr : GoError) (i : Nat)
    (hget : getChar w.conf F cmd.Name cmd.Player = Except.ok i) :
    (cmd.edited w.conf i).Chars.length = w.conf.Chars.length ∧
    (∀ j, j ≠ i → (cmd.edited w.conf i).Chars[j]? = w.conf.Chars[j]?) ∧
    (∃ old, w.conf.Chars[i]? = some old ∧
      (cmd.edited w.conf i).Chars[i]? = some (cmd.apply old) ∧
      (if cmd.Name ≠ "" then F.eq old.Name cmd.Name else F.eq old.Player cmd.Player) = true ∧
      ∀ j r, j < i → w.conf.Chars[j]? = some r →
        (if cmd.Name ≠ "" then F.eq r.Name cmd.Name else F.eq r.Player cmd.Player) = false) ∧
    (cmd.edited w.conf i).path = w.conf.path ∧
    cmd.Run F w fsErr = World.Write { w with conf := cmd.edited w.conf i } fsErr := by
  refine ⟨updateAt_length _ _ _, fun j hj => updateAt_getElem?_ne _ _ _ _ hj, ?_, rfl, ?_⟩
  · unfold getChar GameConfig.CharByName GameConfig.CharByPlayerName at hget
    by_cases h : cmd.Name = ""
    · simp only [ne_eq, h, not_true_eq_false, if_false] at hget ⊢
      obtain ⟨old, ho, hf, hlt⟩ := (searchChars_spec w.conf _).2.2.1 i hget
      exact ⟨old, ho, by simp [CharacterEditCmd.edited, updateAt_getElem?, ho], hf, hlt⟩
    · simp only [ne_eq, h, not_false_eq_true, if_true] at hget ⊢
      obtain ⟨old, ho, hf, hlt⟩ := (searchChars_spec w.conf _).2.2.1 i hget
      exact ⟨old, ho, by simp [CharacterEditCmd.edited, updateAt_getElem?, ho], hf, hlt⟩
  · simp [CharacterEditCmd.Run, hget]

theorem edit_touches_selected_only_witness :
    (({ editDefaults "" "ben" with Level := 9 } : CharacterEditCmd).edited
      (worldOf [sampleChar, { sampleChar with Name := "Bob", Player := "Ben" }]).conf 1).Chars[0]? =
        some sampleChar :=
  ((edit_touches_selected_only asciiFold
    (worldOf [sampleChar, { sampleChar with Name := "Bob", Player := "Ben" }])
    { editDefaults "" "ben" with Level := 9 } none 1 rfl).2.1 0 (by decide)).trans rfl

/-! ## Monotonicity of the degree -/

theorem boundaryDegree_mono (t r1 r2 : Int) (h : r1 ≤ r2) :
    boundaryDegree r1 t ≤ boundaryDegree r2 t := by
  unfold boundaryDegree
  split_ifs <;> first | omega | decide

theorem naturalShift_mono (d g1 g2 : Int) (h : g1 ≤ g2) :
    naturalShift d g1 ≤ naturalShift d g2 := by
  unfold naturalShift
  split_ifs
  · exact max_le_max le_rfl (Int.sub_le_sub_right h 1)
  · exact min_le_min le_rfl (Int.add_le_add_right h 1)
  · exact h

/-- C21: the final degree of `roll` is monotone in the modifier: for a die
value `d = r + 1` in 1..20, a non-zero target `t` and two statistic functions
whose modifiers for the character satisfy `m1 <= m2`, with the totals `d + m1`
and `d + m2` exact (representable), the final degree printed for `m1` is at
most the one printed for `m2` in the order Critical Failure < Failure <
Success < Critical Success. -/
theorem roll_degree_monotone (fn1 fn2 : modFn) (chars : List CharConfig) (i : Nat)
    (char : CharConfig) (rng : Nat → Int) (t : Int)
    (hc : chars[i]? = some char) (hr : 0 ≤ rng i ∧ rng i < 20) (ht : t ≠ 0)
    (hm : fn1 char ≤ fn2 char)
    (h1 : InInt (rng i + 1 + fn1 char)) (h2 : InInt (rng i + 1 + fn2 char)) :
    ∃ line1 line2 f1 f2,
      (roll chars fn1 t rng).lines[i]? = some line1 ∧
      (roll chars fn2 t rng).lines[i]? = some line2 ∧
      line1.d20 = rng i + 1 ∧ line2.d20 = rng i + 1 ∧
      line1.result = rng i + 1 + fn1 char ∧ line2.result = rng i + 1 + fn2 char ∧
      line1.degree = some f1 ∧ line2.degree = some f2 ∧ f1 ≤ f2 ∧
      (CriticalFailure < Failure ∧ Failure < Success ∧ Success < CriticalSuccess) := by
  have hd : goAdd (rng i) 1 = rng i + 1 := by
    apply wrapInt_of_inInt
    unfold InInt
    omega
  have e1 : goAdd (rng i + 1) (fn1 char) = rng i + 1 + fn1 char := wrapInt_of_inInt h1
  have e2 : goAdd (rng i + 1) (fn2 char) = rng i + 1 + fn2 char := wrapInt_of_inInt h2
  refine ⟨rollChar fn1 t (rng i) char, rollChar fn2 t (rng i) char,
    naturalShift (rng i + 1) (boundaryDegree (rng i + 1 + fn1 char) t),
    naturalShift (rng i + 1) (boundaryDegree (rng i + 1 + fn2 char) t),
    roll_line fn1 t rng chars i char hc, roll_line fn2 t rng chars i char hc,
    ?_, ?_, ?_, ?_, ?_, ?_, ?_, by decide⟩
  · simp [rollChar, hd]
  · simp [rollChar, hd]
  · simp [rollChar, hd, e1]
  · simp [rollChar, hd, e2]
  · simp [rollChar, hd, e1, ht]
  · simp [rollChar, hd, e2, ht]
  · exact naturalShift_mono _ _ _ (boundaryDegree_mono t _ _ (by omega))

theorem roll_degree_monotone_witness :
    ∃ line1 line2 f1 f2,
      (roll [sampleChar] Flat 15 (fun _ => 9)).lines[0]? = some line1 ∧
      (roll [sampleChar] Arcana 15 (fun _ => 9)).lines[0]? = some line2 ∧
      line1.degree = some f1 ∧ line2.degree = some f2 ∧ f1 ≤ f2 := by
  obtain ⟨l1, l2, f1, f2, a, b, _, _, _, _, c, d, e, _⟩ :=
    roll_degree_monotone Flat Arcana [sampleChar] 0 sampleChar (fun _ => 9) 15 rfl
      (by decide) (by decide) (by decide) (by decide) (by decide)
  exact ⟨l1, l2, f1, f2, a, b, c, d, e⟩

end P2Roll
